import Mathlib

/-!
Verification of `src/node/flow.ts` (brackets-flow): a shallow embedding of
the result mapper (`createCodeInspectionReport`), the command runner
(`spawnWrapper`), the single-flight coalescer (`getFlowResult` and its
module-level cache `_getFlowResults`), and the orchestrator
(`scanFileWithFlow`), together with theorems settling the specification's
claims about them.
-/

namespace Flow

/-- One message of a Flow finding: the objects in `errors[].message[]` of the
Flow JSON output consumed by `flow.ts` (fields `path`, `type`, `descr`,
`line`, `start`). Lines and columns are 1-based in the raw output. -/
structure FlowMessage where
  path : String
  type : String
  descr : String
  line : Int
  start : Int
deriving DecidableEq

/-- One finding (an `errors[]` entry) of the Flow JSON output: a severity
`level` and its ordered list of messages. -/
structure FlowError where
  level : String
  message : List FlowMessage
deriving DecidableEq

/-- The parsed Flow output (`FlowResult` interface in `flow.ts`). -/
structure FlowResult where
  errors : List FlowError
deriving DecidableEq

/-- 0-based editor position (the `pos` of a `CodeInspectionResult`). -/
structure Pos where
  line : Int
  ch : Int
deriving DecidableEq

/-- One normalized diagnostic (`CodeInspectionResult` of the Brackets API). -/
structure CodeInspectionResult where
  type : String
  message : String
  pos : Pos
deriving DecidableEq

/-- The per-file report (`CodeInspectionReport`): an ordered list of
diagnostics. -/
structure CodeInspectionReport where
  errors : List CodeInspectionResult
deriving DecidableEq

/-- `createCodeInspectionReport(filePath, flowResult)` of `flow.ts`, with
`path.resolve` of the node `path` module (an external collaborator) abstracted
as the `resolve` argument. For each finding it first collects the
descriptions of the `Comment`-typed messages (`flowError.message.filter(x =>
x.type === 'Comment').map(x => x.descr)`), then iterates over every message
of the finding, skips a message whose resolved path differs from the resolved
target (`if (!isForFilePath) { return; }`), prefixes the joined comments onto
the description when any comments were collected, and pushes one diagnostic
whose severity is `problem_type_error` exactly when the finding's level is
`"error"`, at the 0-based position `(line - 1, start - 1)`. -/
def createCodeInspectionReport (resolve : String → String) (filePath : String)
    (flowResult : FlowResult) : CodeInspectionReport :=
  { errors := flowResult.errors.flatMap (fun flowError =>
      let comments := (flowError.message.filter (fun x => x.type == "Comment")).map
        (fun x => x.descr)
      flowError.message.filterMap (fun flowMessage =>
        let isForFilePath := resolve filePath == resolve flowMessage.path
        if !isForFilePath then none
        else
          let message :=
            if comments.length > 0 then
              String.intercalate " " comments ++ ": " ++ flowMessage.descr
            else flowMessage.descr
          some { type := if flowError.level == "error" then "problem_type_error"
                         else "problem_type_warning",
                 message := message,
                 pos := { line := flowMessage.line - 1, ch := flowMessage.start - 1 } })) }

/-- The diagnostic pushed by the source for one message, given the comment
prefix list of its finding. -/
def emitDiagnostic (comments : List String) (level : String)
    (m : FlowMessage) : CodeInspectionResult :=
  { type := if level == "error" then "problem_type_error" else "problem_type_warning",
    message := if comments.length > 0 then
                 String.intercalate " " comments ++ ": " ++ m.descr
               else m.descr,
    pos := { line := m.line - 1, ch := m.start - 1 } }

/-- The mapper according to the amended reading of the spec: the only filter
applied to a finding's messages is the file-path comparison — every message
whose resolved path equals the resolved target yields one diagnostic,
`Comment`-typed messages included. -/
def reportPathFiltered (resolve : String → String) (filePath : String)
    (flowResult : FlowResult) : CodeInspectionReport :=
  { errors := flowResult.errors.flatMap (fun flowError =>
      let comments := (flowError.message.filter (fun x => x.type == "Comment")).map
        (fun x => x.descr)
      (flowError.message.filter (fun m => resolve filePath == resolve m.path)).map
        (emitDiagnostic comments flowError.level)) }

lemma filterMap_not_if {α β : Type} (q : α → Bool) (f : α → β) :
    ∀ l : List α,
      (l.filterMap fun a => if !(q a) then none else some (f a)) =
        (l.filter q).map f := by
  intro l
  induction l with
  | nil => rfl
  | cons a l ih =>
    cases hq : q a <;>
      simp [List.filterMap_cons, List.filter_cons, hq] <;>
      simpa using ih

/-- C4 (counterexample): a `Comment`-typed message whose path matches the
target file IS turned into a diagnostic by `createCodeInspectionReport` —
the source's per-message loop filters only by file path, never by message
type — refuting the claim that a comment-kind message is never itself a
diagnostic target. Here the single finding consists of exactly one
`Comment` message for `/a.js`, and mapping for target `/a.js` yields a
(nonempty) report with one diagnostic built from that comment message
(its own description also serves as the comment prefix, hence `"c: c"`). -/
theorem mapper_comment_message_emitted :
    createCodeInspectionReport id "/a.js"
        ⟨[⟨"error", [⟨"/a.js", "Comment", "c", 1, 1⟩]⟩]⟩ =
      ⟨[⟨"problem_type_error", "c: c", ⟨0, 0⟩⟩]⟩ := by
  decide

/-- C4 (amended): within one finding, the only criterion deciding whether a
message becomes a diagnostic is the file-path comparison; `Comment`-typed
messages are not exempt. The mapper equals the path-filter-only mapper
`reportPathFiltered` on all inputs. -/
theorem mapper_filters_by_path_only (resolve : String → String)
    (filePath : String) (flowResult : FlowResult) :
    createCodeInspectionReport resolve filePath flowResult =
      reportPathFiltered resolve filePath flowResult := by
  unfold createCodeInspectionReport reportPathFiltered
  congr 1
  apply List.flatMap_congr
  intro flowError _
  exact filterMap_not_if
    (fun m => resolve filePath == resolve m.path)
    (emitDiagnostic
      ((flowError.message.filter (fun x => x.type == "Comment")).map (fun x => x.descr))
      flowError.level)
    flowError.message

/-- C5: mapping a raw result with one `error`-level finding holding a comment
message `"Foo"` (for no particular file: its path `""` does not resolve to the
target) and an ordinary message `{path: "/a.js", descr: "bad", line: 5,
start: 3}`, for target `/a.js`, yields exactly one diagnostic
`{type: problem_type_error, message: "Foo: bad", pos: {line: 4, ch: 2}}`:
comment prefixes are joined with a single space and attached with `": "`,
level `"error"` maps to `problem_type_error`, and the 1-based `(line, start)`
become 0-based `(line, ch)`. A level other than `"error"` (second conjunct)
maps to `problem_type_warning`. -/
theorem mapper_example_report :
    (createCodeInspectionReport id "/a.js"
        ⟨[⟨"error", [⟨"", "Comment", "Foo", 0, 0⟩,
                     ⟨"/a.js", "normal", "bad", 5, 3⟩]⟩]⟩ =
      ⟨[⟨"problem_type_error", "Foo: bad", ⟨4, 2⟩⟩]⟩) ∧
    (createCodeInspectionReport id "/a.js"
        ⟨[⟨"warning", [⟨"/a.js", "normal", "bad", 5, 3⟩]⟩]⟩ =
      ⟨[⟨"problem_type_warning", "bad", ⟨4, 2⟩⟩]⟩) := by
  exact ⟨by decide, by decide⟩

/-- C6: the report is path-scoped — every diagnostic it contains derives from
a message of some finding whose resolved path equals the resolved target
path; its position is that message's `(line - 1, start - 1)` and its text is
that message's description, possibly with a comment prefix attached. Hence a
raw message whose resolved path differs from the target (say `/b.js` when
`/a.js` was requested) never itself appears as a diagnostic. -/
theorem mapper_path_scoped (resolve : String → String) (filePath : String)
    (flowResult : FlowResult) (d : CodeInspectionResult)
    (hd : d ∈ (createCodeInspectionReport resolve filePath flowResult).errors) :
    ∃ f ∈ flowResult.errors, ∃ m ∈ f.message,
      resolve filePath = resolve m.path ∧
      d.pos.line = m.line - 1 ∧ d.pos.ch = m.start - 1 ∧
      (d.message = m.descr ∨ ∃ p, d.message = p ++ ": " ++ m.descr) := by
  unfold createCodeInspectionReport at hd
  simp only [List.mem_flatMap] at hd
  obtain ⟨flowError, hfe, hdm⟩ := hd
  rw [List.mem_filterMap] at hdm
  obtain ⟨m, hm, hbody⟩ := hdm
  refine ⟨flowError, hfe, m, hm, ?_⟩
  by_cases hpath : (resolve filePath == resolve m.path) = true
  · rw [if_neg (by simp [hpath])] at hbody
    have hpath' := beq_iff_eq.mp hpath
    cases hbody
    refine ⟨hpath', rfl, rfl, ?_⟩
    by_cases hc : 0 <
        ((flowError.message.filter (fun x => x.type == "Comment")).map
          (fun x => x.descr)).length
    · exact Or.inr ⟨String.intercalate " "
        ((flowError.message.filter (fun x => x.type == "Comment")).map
          (fun x => x.descr)), by simp only [if_pos hc]⟩
    · exact Or.inl (by simp only [if_neg hc])
  · rw [if_pos (by simp [hpath])] at hbody
    cases hbody

/-- Witness for C6 at a concrete report: the single diagnostic produced for
`/a.js` derives from the finding's one message, whose path is `/a.js`. -/
theorem mapper_path_scoped_witness :
    ∃ f ∈ (FlowResult.mk [⟨"error", [⟨"/a.js", "normal", "bad", 5, 3⟩]⟩]).errors,
      ∃ m ∈ f.message,
        id "/a.js" = id m.path ∧
        (CodeInspectionResult.mk "problem_type_error" "bad" ⟨4, 2⟩).pos.line
            = m.line - 1 ∧
        (CodeInspectionResult.mk "problem_type_error" "bad" ⟨4, 2⟩).pos.ch
            = m.start - 1 ∧
        ((CodeInspectionResult.mk "problem_type_error" "bad" ⟨4, 2⟩).message
            = m.descr ∨
         ∃ p, (CodeInspectionResult.mk "problem_type_error" "bad" ⟨4, 2⟩).message
            = p ++ ": " ++ m.descr) :=
  mapper_path_scoped id "/a.js"
    (FlowResult.mk [⟨"error", [⟨"/a.js", "normal", "bad", 5, 3⟩]⟩])
    (CodeInspectionResult.mk "problem_type_error" "bad" ⟨4, 2⟩) (by decide)

/-! ## Command runner (`spawnWrapper`) -/

/-- A JavaScript `Error` as far as `flow.ts` inspects it: its `name`
(compared against `"TimeoutError"`) and message. -/
structure JsError where
  name : String
  message : String
deriving DecidableEq

/-- Events emitted by the spawned child process: stdout `data` chunks, the
`close` event (with exit code) and the `error` event. -/
inductive ChildEvent where
  | data (chunk : String)
  | close (code : Int)
  | error (e : JsError)
deriving DecidableEq

/-- The state `spawnWrapper` keeps for one invocation: the accumulated
`stdout` chunks, whether the `once`-registered `close` and `error` handlers
have been consumed, and the callback invocations made so far, each either an
error (`callback(err)`) or a success with the concatenated stdout text
(`callback(null, Buffer.concat(stdout).toString())`). -/
structure SpawnState where
  stdout : List String
  closeFired : Bool
  errorFired : Bool
  calls : List (Option JsError × Option String)
deriving DecidableEq

def spawnInit : SpawnState := ⟨[], false, false, []⟩

/-- Event handling of `spawnWrapper`: `data` pushes the chunk onto `stdout`;
the first `close` (`child.once('close', ...)`) invokes the callback with the
concatenation of all chunks; the first `error` (`child.once('error', ...)`)
invokes the callback with the error. `once` consumes its handler, so a
repeat of the same event is ignored — but nothing guards `close` against
`error`: the two handlers are independent. -/
def spawnStep (s : SpawnState) : ChildEvent → SpawnState
  | .data chunk => { s with stdout := s.stdout ++ [chunk] }
  | .close _ =>
    if s.closeFired then s
    else { s with closeFired := true,
                  calls := s.calls ++ [(none, some (String.join s.stdout))] }
  | .error e =>
    if s.errorFired then s
    else { s with errorFired := true, calls := s.calls ++ [(some e, none)] }

/-- One `spawnWrapper` invocation observing the child-process events `es`. -/
def runSpawn (es : List ChildEvent) : SpawnState := es.foldl spawnStep spawnInit

lemma spawn_counts (es : List ChildEvent) :
    ∀ s : SpawnState,
      ((s.calls.filter (fun c => c.2.isSome)).length
          = (if s.closeFired then 1 else 0)) →
      ((s.calls.filter (fun c => c.1.isSome)).length
          = (if s.errorFired then 1 else 0)) →
      (((es.foldl spawnStep s).calls.filter (fun c => c.2.isSome)).length
          = (if (es.foldl spawnStep s).closeFired then 1 else 0)) ∧
      (((es.foldl spawnStep s).calls.filter (fun c => c.1.isSome)).length
          = (if (es.foldl spawnStep s).errorFired then 1 else 0)) := by
  induction es with
  | nil => exact fun s h1 h2 => ⟨h1, h2⟩
  | cons e es ih =>
    intro s h1 h2
    refine ih (spawnStep s e) ?_ ?_ <;> cases e with
    | data chunk => simpa using ‹_›
    | close code =>
      by_cases hc : s.closeFired <;>
        simp [spawnStep, hc, List.filter_append, h1, h2]
    | error err =>
      by_cases hc : s.errorFired <;>
        simp [spawnStep, hc, List.filter_append, h1, h2]

lemma runSpawn_data_acc (chunks : List String) :
    ∀ s : SpawnState,
      (chunks.map ChildEvent.data).foldl spawnStep s
        = { s with stdout := s.stdout ++ chunks } := by
  induction chunks with
  | nil => intro s; simp
  | cons c cs ih =>
    intro s
    simp [spawnStep, ih]

/-- C7 (counterexample): when the child emits an `error` event and then a
`close` event — which node does when the process fails to spawn —
`spawnWrapper` invokes its completion callback twice: once with the error
and once with a success (the empty accumulated stdout). The claim that it
never delivers both a success and an error for one invocation is false; the
suppression happens only downstream, in `getFlowResult`'s
`resolved`/`timedOut` guard. -/
theorem spawnWrapper_double_callback :
    (runSpawn [ChildEvent.error ⟨"Error", "spawn ENOENT"⟩,
               ChildEvent.close 1]).calls =
      [(some ⟨"Error", "spawn ENOENT"⟩, none), (none, some "")] ∧
    ((runSpawn [ChildEvent.error ⟨"Error", "spawn ENOENT"⟩,
                ChildEvent.close 1]).calls.filter (fun c => c.1.isSome)).length = 1 ∧
    ((runSpawn [ChildEvent.error ⟨"Error", "spawn ENOENT"⟩,
                ChildEvent.close 1]).calls.filter (fun c => c.2.isSome)).length = 1 := by
  refine ⟨by decide, by decide, by decide⟩

/-- C7 (amended): for any sequence of child events, `spawnWrapper` delivers
at most one success and at most one error (each `once` handler fires at most
once), and it accumulates stdout across multiple `data` events: a run of
several chunks followed by `close` delivers exactly one callback invocation
carrying the in-order concatenation of all chunks. It does not, however,
guard success against error delivery (see the counterexample). -/
theorem spawnWrapper_at_most_one_each (es : List ChildEvent)
    (chunks : List String) (code : Int) :
    (((runSpawn es).calls.filter (fun c => c.2.isSome)).length ≤ 1) ∧
    (((runSpawn es).calls.filter (fun c => c.1.isSome)).length ≤ 1) ∧
    (runSpawn (chunks.map ChildEvent.data ++ [ChildEvent.close code])).calls
      = [(none, some (String.join chunks))] := by
  have h := spawn_counts es spawnInit (by simp [spawnInit]) (by simp [spawnInit])
  refine ⟨?_, ?_, ?_⟩
  · rw [runSpawn, h.1]; split <;> omega
  · rw [runSpawn, h.2]; split <;> omega
  · rw [runSpawn, List.foldl_append, runSpawn_data_acc chunks spawnInit]
    simp [spawnInit, spawnStep]

/-! ## Orchestrator (`scanFileWithFlow`) -/

/-- The settled outcome of `getFlowResult`'s promise: a parsed `FlowResult`
on success, or the rejection error (timeout, spawn error, or JSON parse
error). -/
inductive Settlement where
  | success (r : FlowResult)
  | failure (e : JsError)
deriving DecidableEq

/-- `const FLOW_TIMEOUT = 3000;` — the module-level timeout constant. -/
def FLOW_TIMEOUT : Nat := 3000

/-- The error `getFlowResult` rejects with when the timer wins the race
(`err.name = 'TimeoutError'`). -/
def timeoutError : JsError := ⟨"TimeoutError", ""⟩

/-- The error rejected on a `JSON.parse` failure (a JS `SyntaxError`). -/
def jsonSyntaxError : JsError := ⟨"SyntaxError", ""⟩

/-- `scanFileWithFlow(projectRoot, fullPath, callback)` of `flow.ts`. The two
filesystem precondition checks `hasFlowConfig`/`hasFlowBin` consult the
filesystem (an external collaborator) and are passed in as booleans, and the
settled outcome of `getFlowResult(projectRoot)` is passed as `outcome`.
Returns the list of callback invocations `(err, result)` the function makes
once that promise settles: an empty report when no `.flowconfig` exists, a
single synthetic install-instruction diagnostic when the flow binary is
missing, the mapped report on success, a single synthetic timeout diagnostic
at (0,0) when the rejection is a `TimeoutError`, and `callback(err)` for any
other rejection. -/
def scanFileWithFlow (hasConfig hasBin : Bool) (resolve : String → String)
    (fullPath : String) (outcome : Settlement) :
    List (Option JsError × Option CodeInspectionReport) :=
  if !hasConfig then [(none, some ⟨[]⟩)]
  else if !hasBin then
    [(none, some ⟨[⟨"problem_type_error",
      "FlowError: Can\x27t locate node_modules/.bin/flow in your project, please install flow-bin",
      ⟨0, 0⟩⟩]⟩)]
  else
    match outcome with
    | .success res => [(none, some (createCodeInspectionReport resolve fullPath res))]
    | .failure err =>
      if err.name == "TimeoutError" then
        [(none, some ⟨[⟨"problem_type_error",
          "FlowError: Timed out after waiting " ++ toString FLOW_TIMEOUT ++ "ms",
          ⟨0, 0⟩⟩]⟩)]
      else [(some err, none)]

/-- C8: with the config and binary checks passed, a timeout rejection is not
propagated as an error: it yields a successful report with exactly one
diagnostic of type `problem_type_error` at position (0,0) whose message
states the 3000 ms timeout duration; any other rejection (spawn error, parse
error) is propagated to the caller as `callback(err)` and produces no
diagnostic. -/
theorem scanFileWithFlow_timeout_reported (resolve : String → String)
    (fullPath : String) (e : JsError) :
    (e.name = "TimeoutError" →
      scanFileWithFlow true true resolve fullPath (.failure e) =
        [(none, some ⟨[⟨"problem_type_error",
          "FlowError: Timed out after waiting 3000ms", ⟨0, 0⟩⟩]⟩)]) ∧
    (e.name ≠ "TimeoutError" →
      scanFileWithFlow true true resolve fullPath (.failure e) =
        [(some e, none)]) := by
  constructor
  · intro h
    simp [scanFileWithFlow, h]
    decide
  · intro h
    simp [scanFileWithFlow, h]

/-- Witness for C8: at the concrete timeout error the single synthetic
diagnostic is produced, and at a concrete spawn error the error itself is
propagated. -/
theorem scanFileWithFlow_timeout_reported_witness :
    (scanFileWithFlow true true id "/a.js" (.failure ⟨"TimeoutError", ""⟩) =
      [(none, some ⟨[⟨"problem_type_error",
        "FlowError: Timed out after waiting 3000ms", ⟨0, 0⟩⟩]⟩)]) ∧
    (scanFileWithFlow true true id "/a.js" (.failure ⟨"Error", "spawn ENOENT"⟩) =
      [(some ⟨"Error", "spawn ENOENT"⟩, none)]) :=
  ⟨(scanFileWithFlow_timeout_reported id "/a.js" ⟨"TimeoutError", ""⟩).1 rfl,
   (scanFileWithFlow_timeout_reported id "/a.js" ⟨"Error", "spawn ENOENT"⟩).2 (by decide)⟩

/-- C10: on every path — config absent, binary absent, success, timeout, and
any other failure — `scanFileWithFlow` invokes its completion callback
exactly once (never zero times once the promise settles, never twice). -/
theorem scanFileWithFlow_callback_once (hasConfig hasBin : Bool)
    (resolve : String → String) (fullPath : String) (outcome : Settlement) :
    (scanFileWithFlow hasConfig hasBin resolve fullPath outcome).length = 1 := by
  cases hasConfig <;> cases hasBin <;> cases outcome <;>
    simp [scanFileWithFlow] <;> split <;> simp

/-! ## Single-flight coalescer (`getFlowResult` and `_getFlowResults`)

`getFlowResult` is modelled as an event-step machine. A `call` event is one
invocation of `getFlowResult(projectRoot)`; it either attaches the caller to
the cached in-flight promise (`if (_getFlowResults[projectRoot]) return
_getFlowResults[projectRoot];`) or creates a fresh promise executor — a
"slot", identified by a generation number `gen` — spawning flow and starting
the `setTimeout(.., FLOW_TIMEOUT)` timer. `timerFires`/`spawnDone` events
deliver the timer callback and the `spawnWrapper` completion callback of a
given slot. Settlement (resolve/reject) runs the `.then`/`.catch` handlers,
which broadcast the outcome to every attached caller and clear
`_getFlowResults[projectRoot]`. -/

/-- The closure state of one `getFlowResult` promise executor: the
`projectRoot` it captured, the `resolved` and `timedOut` flags, whether the
`setTimeout` timer is still scheduled (`clearTimeout` and firing both clear
it), the duration the timer was started with, and the settlement (if any)
the promise was resolved or rejected with. -/
structure Closure where
  key : String
  resolved : Bool
  timedOut : Bool
  timerActive : Bool
  timerDuration : Nat
  settledWith : Option Settlement
deriving DecidableEq

/-- Completion of the underlying `spawnWrapper` call: `callback(err)` or
`callback(null, stdoutText)`. -/
inductive SpawnOutcome where
  | error (e : JsError)
  | close (stdoutText : String)
deriving DecidableEq

/-- Events of the coalescer machine. -/
inductive Event where
  | call (k : String)
  | timerFires (g : Nat)
  | spawnDone (g : Nat) (out : SpawnOutcome)
deriving DecidableEq

/-- The global state of the coalescer: all promise-executor closures ever
created (indexed by generation), the `_getFlowResults` cache mapping a
project root to the generation of its in-flight slot, the log of spawned
invocations, the attachment log (which caller joined which slot), and the
delivery log (which caller received which outcome from which slot).
`nextGen`/`nextCaller` supply fresh identifiers. -/
structure EngineState where
  closures : List (Nat × Closure)
  cache : List (String × Nat)
  invocations : List (String × Nat)
  attached : List (Nat × Nat)
  delivered : List (Nat × Nat × Settlement)
  nextGen : Nat
  nextCaller : Nat
deriving DecidableEq

def engineInit : EngineState := ⟨[], [], [], [], [], 0, 0⟩

/-- First-match association lookup (models a JS object used as a map). -/
def alookup {α β : Type} [DecidableEq α] (a : α) : List (α × β) → Option β
  | [] => none
  | p :: l => if p.1 = a then some p.2 else alookup a l

/-- Update the entries with key `a` in place. -/
def updateAt {α β : Type} [DecidableEq α] (a : α) (f : β → β)
    (l : List (α × β)) : List (α × β) :=
  l.map (fun p => if p.1 = a then (p.1, f p.2) else p)

/-- Delete the entries with key `a` (models `obj[key] = undefined`). -/
def eraseKey {α β : Type} [DecidableEq α] (a : α) : List (α × β) → List (α × β)
  | [] => []
  | p :: l => if p.1 = a then eraseKey a l else p :: eraseKey a l

/-- The callers currently attached to slot `g`. -/
def waitersOf (s : EngineState) (g : Nat) : List Nat :=
  (s.attached.filter (fun p => p.2 == g)).map (fun p => p.1)

/-- Settling slot `g` with outcome `o`: the promise records its settlement
(`upd` sets the flag — `timedOut` or `resolved` — the source sets at that
point, and `clearTimeout`/firing leaves the timer inactive), the
`.then`/`.catch` handlers deliver the outcome to every attached caller and
clear `_getFlowResults[projectRoot]` for the `projectRoot` the closure
captured. -/
def settle (g : Nat) (o : Settlement) (upd : Closure → Closure)
    (s : EngineState) : EngineState :=
  match alookup g s.closures with
  | none => s
  | some cl =>
    { s with
      closures := updateAt g (fun c => { upd c with settledWith := some o }) s.closures,
      cache := eraseKey cl.key s.cache,
      delivered := (waitersOf s g).map (fun c => (c, g, o)) ++ s.delivered }

/-- One step of the coalescer, parametrized by `parse` — the external
`JSON.parse` reading `spawnWrapper`'s stdout text into a `FlowResult`
(`none` models a thrown `SyntaxError`).

* `call k` is `getFlowResult(k)`: if `_getFlowResults[k]` holds an in-flight
  promise the caller is attached to it and nothing else happens; otherwise a
  fresh slot is created, one flow invocation is spawned, and the timeout
  timer is started with `FLOW_TIMEOUT`.
* `timerFires g` is slot `g`'s `setTimeout` callback: a no-op unless the
  timer is still scheduled; the callback returns early when `resolved ||
  timedOut`, else sets `timedOut` and rejects with the `TimeoutError`.
* `spawnDone g out` is slot `g`'s `spawnWrapper` callback: it returns early
  when `resolved || timedOut` (a completion arriving after the timeout is
  discarded), else sets `resolved`, calls `clearTimeout`, and rejects with
  the spawn error, resolves with the parsed result, or rejects with the
  parse error. -/
def step (parse : String → Option FlowResult) (s : EngineState) :
    Event → EngineState
  | .call k =>
    match alookup k s.cache with
    | some g =>
      { s with attached := (s.nextCaller, g) :: s.attached,
               nextCaller := s.nextCaller + 1 }
    | none =>
      { s with
        closures := (s.nextGen,
          { key := k, resolved := false, timedOut := false,
            timerActive := true, timerDuration := FLOW_TIMEOUT,
            settledWith := none }) :: s.closures,
        cache := (k, s.nextGen) :: s.cache,
        invocations := (k, s.nextGen) :: s.invocations,
        attached := (s.nextCaller, s.nextGen) :: s.attached,
        nextGen := s.nextGen + 1,
        nextCaller := s.nextCaller + 1 }
  | .timerFires g =>
    match alookup g s.closures with
    | none => s
    | some cl =>
      if cl.timerActive = false then s
      else if cl.resolved || cl.timedOut then
        { s with closures := updateAt g (fun c => { c with timerActive := false }) s.closures }
      else
        settle g (.failure timeoutError)
          (fun c => { c with timedOut := true, timerActive := false }) s
  | .spawnDone g out =>
    match alookup g s.closures with
    | none => s
    | some cl =>
      if cl.resolved || cl.timedOut then s
      else
        settle g
          (match out with
           | .error e => .failure e
           | .close txt =>
             match parse txt with
             | some r => .success r
             | none => .failure jsonSyntaxError)
          (fun c => { c with resolved := true, timerActive := false }) s

/-- Running the coalescer from the initial (empty-cache) state over a trace
of events. -/
def run (parse : String → Option FlowResult) (es : List Event) : EngineState :=
  es.foldl (step parse) engineInit

/-- A concrete `JSON.parse` stand-in for witnesses: parsing always fails. -/
def parseNone : String → Option FlowResult := fun _ => none

lemma alookup_updateAt {α β : Type} [DecidableEq α] (a a' : α) (f : β → β)
    (l : List (α × β)) :
    alookup a' (updateAt a f l)
      = if a' = a then (alookup a' l).map f else alookup a' l := by
  induction l with
  | nil => simp [updateAt, alookup]
  | cons p l ih =>
    by_cases h1 : p.1 = a
    · by_cases h2 : a' = a
      · subst h2
        simp [updateAt, alookup, h1, ih]
      · have h3 : ¬p.1 = a' := by rw [h1]; exact fun hh => h2 hh.symm
        simp only [updateAt, List.map_cons, if_pos h1] at *
        simp [alookup, h3, ih, if_neg h2]
    · by_cases h2 : a' = a
      · subst h2
        have h3 : ¬p.1 = a' := h1
        simp only [updateAt, List.map_cons, if_neg h1] at *
        simp [alookup, h3, ih]
      · simp only [updateAt, List.map_cons, if_neg h1] at *
        by_cases h3 : p.1 = a'
        · simp [alookup, h3, if_neg h2]
        · simp [alookup, h3, ih, if_neg h2]

lemma alookup_eraseKey {α β : Type} [DecidableEq α] (a a' : α)
    (l : List (α × β)) :
    alookup a' (eraseKey a l) = if a' = a then none else alookup a' l := by
  induction l with
  | nil => simp [eraseKey, alookup]
  | cons p l ih =>
    by_cases h1 : p.1 = a
    · by_cases h2 : a' = a
      · subst h2; simp [eraseKey, h1, ih]
      · have h3 : ¬p.1 = a' := by rw [h1]; exact fun hh => h2 hh.symm
        have h4 : ¬a = a' := fun hh => h2 hh.symm
        simp [eraseKey, alookup, h1, h3, ih, if_neg h2, if_neg h4]
    · by_cases h3 : p.1 = a'
      · have h2 : ¬a' = a := by rw [← h3]; exact h1
        simp [eraseKey, alookup, h1, h3, if_neg h2]
      · simp [eraseKey, alookup, h1, h3, ih]

lemma mem_waitersOf {s : EngineState} {g c : Nat} :
    c ∈ waitersOf s g ↔ (c, g) ∈ s.attached := by
  constructor
  · intro h
    rw [waitersOf, List.mem_map] at h
    obtain ⟨p, hp, hc⟩ := h
    rw [List.mem_filter] at hp
    have hg := beq_iff_eq.mp hp.2
    have : p = (c, g) := by
      cases p; simp only at hc hg; rw [hc, hg]
    rw [← this]; exact hp.1
  · intro h
    rw [waitersOf, List.mem_map]
    exact ⟨(c, g), List.mem_filter.mpr ⟨h, by simp⟩, rfl⟩

lemma assoc_unique {α β : Type} (l : List (α × β))
    (h : (l.map (fun p => p.1)).Nodup) {a : α} {b b' : β}
    (h1 : (a, b) ∈ l) (h2 : (a, b') ∈ l) : b = b' := by
  induction l with
  | nil => cases h1
  | cons p l ih =>
    rw [List.map_cons, List.nodup_cons] at h
    rcases List.mem_cons.mp h1 with e1 | m1
    · rcases List.mem_cons.mp h2 with e2 | m2
      · rw [← e1] at e2
        exact (Prod.mk.injEq _ _ _ _ ▸ e2).2.symm
      · exfalso
        exact h.1 (e1 ▸ List.mem_map.mpr ⟨(a, b'), m2, rfl⟩)
    · rcases List.mem_cons.mp h2 with e2 | m2
      · exfalso
        exact h.1 (e2 ▸ List.mem_map.mpr ⟨(a, b), m1, rfl⟩)
      · exact ih h.2 m1 m2

/-- Invariant of the coalescer machine, preserved by every step:

* `cacheClosure`: a cached slot belongs to an unsettled closure for that key
  whose timer is still scheduled;
* `flagsSettled`: a closure has recorded a settlement exactly when one of
  its `resolved`/`timedOut` flags is set;
* `deliveredSettled`: every delivery carries the settlement its slot
  recorded;
* `deliveredAttached`: outcomes are only delivered to attached callers;
* `attachedNodup`/`attachedLt`: every caller attaches to exactly one slot,
  and caller ids are fresh;
* `delivNodup`: no caller ever receives two deliveries;
* `gensLt`: generation ids are fresh;
* `durationsEq`: every timer was started with `FLOW_TIMEOUT`. -/
structure Inv (s : EngineState) : Prop where
  cacheClosure : ∀ k g, alookup k s.cache = some g →
    ∃ cl, alookup g s.closures = some cl ∧ cl.key = k ∧
      cl.resolved = false ∧ cl.timedOut = false ∧ cl.timerActive = true
  flagsSettled : ∀ g cl, alookup g s.closures = some cl →
    (cl.settledWith = none ↔ (cl.resolved = false ∧ cl.timedOut = false))
  deliveredSettled : ∀ c g o, (c, g, o) ∈ s.delivered →
    ∃ cl, alookup g s.closures = some cl ∧ cl.settledWith = some o
  deliveredAttached : ∀ c g o, (c, g, o) ∈ s.delivered → (c, g) ∈ s.attached
  attachedNodup : (s.attached.map (fun p => p.1)).Nodup
  attachedLt : ∀ c g, (c, g) ∈ s.attached → c < s.nextCaller
  delivNodup : (s.delivered.map (fun t => t.1)).Nodup
  gensLt : ∀ g cl, alookup g s.closures = some cl → g < s.nextGen
  durationsEq : ∀ g cl, alookup g s.closures = some cl →
    cl.timerDuration = FLOW_TIMEOUT

lemma inv_init : Inv engineInit := by
  refine ⟨?_, ?_, ?_, ?_, ?_, ?_, ?_, ?_, ?_⟩ <;>
    simp [engineInit, alookup]

lemma map_fst_block (l : List Nat) (g : Nat) (o : Settlement) :
    (l.map (fun c => (c, g, o))).map (fun t => t.1) = l := by
  induction l with
  | nil => rfl
  | cons a l ih => simp [ih]

lemma inv_settle {s : EngineState} {g : Nat} {cl : Closure} {o : Settlement}
    {upd : Closure → Closure} (h : Inv s)
    (hcl : alookup g s.closures = some cl)
    (hres : cl.resolved = false) (htod : cl.timedOut = false)
    (hdur : ∀ c, (upd c).timerDuration = c.timerDuration)
    (hflag : ¬((upd cl).resolved = false ∧ (upd cl).timedOut = false)) :
    Inv (settle g o upd s) := by
  have hnone : cl.settledWith = none :=
    (h.flagsSettled g cl hcl).mpr ⟨hres, htod⟩
  rw [settle, hcl]
  constructor
  case cacheClosure =>
    intro k' g' hk'
    rw [alookup_eraseKey] at hk'
    split at hk'
    · cases hk'
    · rename_i hkne
      obtain ⟨cl'', hcl'', hk'', h1, h2, h3⟩ := h.cacheClosure k' g' hk'
      have hgne : ¬g' = g := by
        intro hgg
        rw [hgg, hcl] at hcl''
        cases hcl''
        exact hkne (hk''.symm ▸ rfl)
      refine ⟨cl'', ?_, hk'', h1, h2, h3⟩
      simpa [alookup_updateAt, if_neg hgne] using hcl''
  case flagsSettled =>
    intro g' cl' hcl'
    rw [alookup_updateAt] at hcl'
    split at hcl'
    · rename_i hgg
      rw [hgg, hcl] at hcl'
      cases hcl'
      constructor
      · intro hx; cases hx
      · intro hx; exact absurd hx hflag
    · exact h.flagsSettled g' cl' hcl'
  case deliveredSettled =>
    intro c g' o' hmem
    rcases List.mem_append.mp hmem with hblock | hold
    · rw [List.mem_map] at hblock
      obtain ⟨w, _, hw⟩ := hblock
      cases hw
      refine ⟨{ upd cl with settledWith := some o }, ?_, rfl⟩
      rw [alookup_updateAt, if_pos rfl, hcl]
      rfl
    · obtain ⟨cl'', hcl'', hsw⟩ := h.deliveredSettled c g' o' hold
      by_cases hgg : g' = g
      · exfalso
        rw [hgg, hcl] at hcl''
        cases hcl''
        rw [hnone] at hsw
        cases hsw
      · exact ⟨cl'', by simpa [alookup_updateAt, if_neg hgg] using hcl'', hsw⟩
  case deliveredAttached =>
    intro c g' o' hmem
    rcases List.mem_append.mp hmem with hblock | hold
    · rw [List.mem_map] at hblock
      obtain ⟨w, hwmem, hw⟩ := hblock
      cases hw
      exact mem_waitersOf.mp hwmem
    · exact h.deliveredAttached c g' o' hold
  case attachedNodup => exact h.attachedNodup
  case attachedLt => exact h.attachedLt
  case delivNodup =>
    rw [List.map_append, List.nodup_append]
    refine ⟨?_, h.delivNodup, ?_⟩
    · rw [map_fst_block, waitersOf]
      exact ((List.filter_sublist _).map _).nodup h.attachedNodup
    · intro c hc hc'
      rw [map_fst_block] at hc
      have hatt : (c, g) ∈ s.attached := mem_waitersOf.mp hc
      rw [List.mem_map] at hc'
      obtain ⟨t, ht, htc⟩ := hc'
      obtain ⟨c', g'', o''⟩ := t
      have hcc : c' = c := htc
      rw [hcc] at ht
      have hatt' : (c, g'') ∈ s.attached := h.deliveredAttached c g'' o'' ht
      have : g = g'' := assoc_unique s.attached h.attachedNodup hatt hatt'
      subst this
      obtain ⟨cl'', hcl'', hsw⟩ := h.deliveredSettled c g o'' ht
      rw [hcl] at hcl''
      cases hcl''
      rw [hnone] at hsw
      cases hsw
  case gensLt =>
    intro g' cl' hcl'
    rw [alookup_updateAt] at hcl'
    split at hcl'
    · rename_i hgg
      exact hgg ▸ h.gensLt g cl hcl
    · exact h.gensLt g' cl' hcl'
  case durationsEq =>
    intro g' cl' hcl'
    rw [alookup_updateAt] at hcl'
    split at hcl'
    · rename_i hgg
      rw [hgg, hcl] at hcl'
      cases hcl'
      show (upd cl).timerDuration = FLOW_TIMEOUT
      rw [hdur]
      exact h.durationsEq g cl hcl
    · exact h.durationsEq g' cl' hcl'

lemma inv_step (parse : String → Option FlowResult) {s : EngineState}
    (e : Event) (h : Inv s) : Inv (step parse s e) := by
  cases e with
  | call k =>
    cases hc : alookup k s.cache with
    | some g =>
      simp only [step, hc]
      refine ⟨h.cacheClosure, h.flagsSettled, h.deliveredSettled, ?_, ?_, ?_,
        h.delivNodup, h.gensLt, h.durationsEq⟩
      · intro c g' o hmem
        exact List.mem_cons.mpr (Or.inr (h.deliveredAttached c g' o hmem))
      · rw [List.map_cons, List.nodup_cons]
        refine ⟨?_, h.attachedNodup⟩
        intro hmem
        rw [List.mem_map] at hmem
        obtain ⟨p, hp, hp1⟩ := hmem
        have := h.attachedLt p.1 p.2 hp
        omega
      · intro c g' hmem
        rcases List.mem_cons.mp hmem with he | hm
        · cases he; dsimp only; omega
        · have := h.attachedLt c g' hm; dsimp only; omega
    | none =>
      simp only [step, hc]
      constructor
      case cacheClosure =>
        intro k' g' hk'
        simp only [alookup] at hk'
        by_cases hkk : k = k'
        · rw [if_pos hkk] at hk'
          cases hk'
          refine ⟨{ key := k, resolved := false, timedOut := false,
                    timerActive := true, timerDuration := FLOW_TIMEOUT,
                    settledWith := none }, ?_, hkk, rfl, rfl, rfl⟩
          simp [alookup]
        · rw [if_neg hkk] at hk'
          obtain ⟨cl'', hcl'', hkk'', f1, f2, f3⟩ := h.cacheClosure k' g' hk'
          have hlt := h.gensLt g' cl'' hcl''
          have hne : ¬s.nextGen = g' := by omega
          refine ⟨cl'', ?_, hkk'', f1, f2, f3⟩
          simp only [alookup, if_neg hne]
          exact hcl''
      case flagsSettled =>
        intro g' cl' hcl'
        simp only [alookup] at hcl'
        by_cases hgg : s.nextGen = g'
        · rw [if_pos hgg] at hcl'
          cases hcl'
          simp
        · rw [if_neg hgg] at hcl'
          exact h.flagsSettled g' cl' hcl'
      case deliveredSettled =>
        intro c g' o hmem
        obtain ⟨cl'', hcl'', hsw⟩ := h.deliveredSettled c g' o hmem
        have hlt := h.gensLt g' cl'' hcl''
        have hne : ¬s.nextGen = g' := by omega
        refine ⟨cl'', ?_, hsw⟩
        simp only [alookup, if_neg hne]
        exact hcl''
      case deliveredAttached =>
        intro c g' o hmem
        exact List.mem_cons.mpr (Or.inr (h.deliveredAttached c g' o hmem))
      case attachedNodup =>
        rw [List.map_cons, List.nodup_cons]
        refine ⟨?_, h.attachedNodup⟩
        intro hmem
        rw [List.mem_map] at hmem
        obtain ⟨p, hp, hp1⟩ := hmem
        have := h.attachedLt p.1 p.2 hp
        omega
      case attachedLt =>
        intro c g' hmem
        rcases List.mem_cons.mp hmem with he | hm
        · cases he; dsimp only; omega
        · have := h.attachedLt c g' hm; dsimp only; omega
      case delivNodup => exact h.delivNodup
      case gensLt =>
        intro g' cl' hcl'
        simp only [alookup] at hcl'
        by_cases hgg : s.nextGen = g'
        · dsimp only; omega
        · rw [if_neg hgg] at hcl'
          have := h.gensLt g' cl' hcl'
          dsimp only; omega
      case durationsEq =>
        intro g' cl' hcl'
        simp only [alookup] at hcl'
        by_cases hgg : s.nextGen = g'
        · rw [if_pos hgg] at hcl'
          cases hcl'
          rfl
        · rw [if_neg hgg] at hcl'
          exact h.durationsEq g' cl' hcl'
  | timerFires g =>
    cases hcl : alookup g s.closures with
    | none => simpa only [step, hcl] using h
    | some cl =>
      simp only [step, hcl]
      by_cases hta : cl.timerActive = false
      · rw [if_pos hta]
        exact h
      · rw [if_neg hta]
        by_cases hflags : (cl.resolved || cl.timedOut) = true
        · rw [if_pos hflags]
          refine ⟨?_, ?_, ?_, ?_, ?_, ?_, ?_, ?_, ?_⟩
          · intro k' g' hk'
            obtain ⟨cl'', hcl'', hkk, f1, f2, f3⟩ := h.cacheClosure k' g' hk'
            have hgne : ¬g' = g := by
              intro hgg
              rw [hgg, hcl] at hcl''
              cases hcl''
              rw [f1, f2] at hflags
              simp at hflags
            refine ⟨cl'', ?_, hkk, f1, f2, f3⟩
            rw [alookup_updateAt, if_neg hgne]
            exact hcl''
          · intro g' cl' hcl'
            rw [alookup_updateAt] at hcl'
            split at hcl'
            · rename_i hgg
              subst hgg
              rw [hcl] at hcl'
              cases hcl'
              exact h.flagsSettled g' cl hcl
            · exact h.flagsSettled g' cl' hcl'
          · intro c g' o hmem
            obtain ⟨cl'', hcl'', hsw⟩ := h.deliveredSettled c g' o hmem
            rw [alookup_updateAt]
            by_cases hgg : g' = g
            · subst hgg
              rw [if_pos rfl, hcl'']
              rw [hcl] at hcl''
              cases hcl''
              exact ⟨_, rfl, hsw⟩
            · rw [if_neg hgg]
              exact ⟨cl'', hcl'', hsw⟩
          · exact h.deliveredAttached
          · exact h.attachedNodup
          · exact h.attachedLt
          · exact h.delivNodup
          · intro g' cl' hcl'
            rw [alookup_updateAt] at hcl'
            split at hcl'
            · rename_i hgg
              subst hgg
              exact h.gensLt g' cl hcl
            · exact h.gensLt g' cl' hcl'
          · intro g' cl' hcl'
            rw [alookup_updateAt] at hcl'
            split at hcl'
            · rename_i hgg
              subst hgg
              rw [hcl] at hcl'
              cases hcl'
              exact h.durationsEq g' cl hcl
            · exact h.durationsEq g' cl' hcl'
        · rw [if_neg hflags]
          have hor : (cl.resolved || cl.timedOut) = false := by
            revert hflags
            cases (cl.resolved || cl.timedOut) <;> simp
          obtain ⟨hres, htod⟩ := Bool.or_eq_false_iff.mp hor
          exact inv_settle h hcl hres htod (fun c => rfl)
            (fun hx => by simpa using hx.2)
  | spawnDone g out =>
    cases hcl : alookup g s.closures with
    | none => simpa only [step, hcl] using h
    | some cl =>
      simp only [step, hcl]
      by_cases hflags : (cl.resolved || cl.timedOut) = true
      · rw [if_pos hflags]
        exact h
      · rw [if_neg hflags]
        have hor : (cl.resolved || cl.timedOut) = false := by
          revert hflags
          cases (cl.resolved || cl.timedOut) <;> simp
        obtain ⟨hres, htod⟩ := Bool.or_eq_false_iff.mp hor
        exact inv_settle h hcl hres htod (fun c => rfl)
          (fun hx => by simpa using hx.1)

lemma inv_run (parse : String → Option FlowResult) (es : List Event) :
    Inv (run parse es) := by
  rw [run]
  suffices h : ∀ s, Inv s → Inv (es.foldl (step parse) s) from h engineInit inv_init
  induction es with
  | nil => exact fun s hs => hs
  | cons e es ih => exact fun s hs => ih (step parse s e) (inv_step parse e hs)

lemma run_append (parse : String → Option FlowResult) (es es' : List Event) :
    run parse (es ++ es') = es'.foldl (step parse) (run parse es) := by
  rw [run, run, List.foldl_append]

lemma calls_keep_slot (parse : String → Option FlowResult) (k : String) (g : Nat) :
    ∀ (n : Nat) (s : EngineState), alookup k s.cache = some g →
      ((List.replicate n (Event.call k)).foldl (step parse) s).invocations
          = s.invocations ∧
      alookup k ((List.replicate n (Event.call k)).foldl (step parse) s).cache
          = some g ∧
      (∀ c g',
        (c, g') ∈ ((List.replicate n (Event.call k)).foldl (step parse) s).attached →
        (c, g') ∈ s.attached ∨ g' = g) := by
  intro n
  induction n with
  | zero => exact fun s h => ⟨rfl, h, fun c g' hm => Or.inl hm⟩
  | succ n ih =>
    intro s h
    rw [List.replicate_succ, List.foldl_cons]
    have hstep : step parse s (Event.call k)
        = { s with attached := (s.nextCaller, g) :: s.attached,
                   nextCaller := s.nextCaller + 1 } := by
      simp only [step, h]
    rw [hstep]
    obtain ⟨h1, h2, h3⟩ := ih { s with attached := (s.nextCaller, g) :: s.attached,
                                       nextCaller := s.nextCaller + 1 } h
    refine ⟨h1, h2, ?_⟩
    intro c g' hm
    rcases h3 c g' hm with hin | hgg
    · rcases List.mem_cons.mp hin with he | hm'
      · cases he
        exact Or.inr rfl
      · exact Or.inl hm'
    · exact Or.inr hgg

lemma settle_unfold {s : EngineState} {g : Nat} {cl : Closure}
    (hcl : alookup g s.closures = some cl) (o : Settlement)
    (upd : Closure → Closure) :
    settle g o upd s =
      { s with
        closures := updateAt g (fun c => { upd c with settledWith := some o })
          s.closures,
        cache := eraseKey cl.key s.cache,
        delivered := (waitersOf s g).map (fun c => (c, g, o)) ++ s.delivered } := by
  rw [settle, hcl]

lemma settle_clears_key (parse : String → Option FlowResult) {s : EngineState}
    {k : String} {g : Nat} {cl : Closure}
    (hcl : alookup g s.closures = some cl) (hkey : cl.key = k)
    (o : Settlement) (upd : Closure → Closure) :
    alookup k (settle g o upd s).cache = none ∧
    (step parse (settle g o upd s) (Event.call k)).invocations
      = (k, s.nextGen) :: (settle g o upd s).invocations := by
  rw [settle_unfold hcl o upd]
  have hnone : alookup k (eraseKey cl.key s.cache) = none := by
    rw [hkey, alookup_eraseKey, if_pos rfl]
  refine ⟨hnone, ?_⟩
  simp only [step, hnone]

/-- C1: `getFlowResult` is single-flight per project root. (a) A call finding
no cached slot starts exactly one fresh invocation. (b) Any number of
further calls for the same key made while that slot is in flight start no
new invocation, leave the slot cached, and only attach the new callers to
that same slot. (c) All callers attached to one slot receive the identical
outcome — any two deliveries from the same slot carry equal settlements. -/
theorem getFlowResult_single_flight (parse : String → Option FlowResult)
    (es : List Event) (k : String) :
    (alookup k (run parse es).cache = none →
      (step parse (run parse es) (Event.call k)).invocations
        = (k, (run parse es).nextGen) :: (run parse es).invocations) ∧
    (∀ n g, alookup k (run parse es).cache = some g →
      (run parse (es ++ List.replicate n (Event.call k))).invocations
          = (run parse es).invocations ∧
      alookup k (run parse (es ++ List.replicate n (Event.call k))).cache = some g ∧
      (∀ c g',
        (c, g') ∈ (run parse (es ++ List.replicate n (Event.call k))).attached →
        (c, g') ∈ (run parse es).attached ∨ g' = g)) ∧
    (∀ c c' g o o', (c, g, o) ∈ (run parse es).delivered →
      (c', g, o') ∈ (run parse es).delivered → o = o') := by
  refine ⟨?_, ?_, ?_⟩
  · intro h
    simp only [step, h]
  · intro n g h
    rw [run_append]
    exact calls_keep_slot parse k g n (run parse es) h
  · intro c c' g o o' h1 h2
    obtain ⟨cl1, hcl1, hs1⟩ := (inv_run parse es).deliveredSettled c g o h1
    obtain ⟨cl2, hcl2, hs2⟩ := (inv_run parse es).deliveredSettled c' g o' h2
    rw [hcl1] at hcl2
    cases hcl2
    rw [hs1] at hs2
    cases hs2
    rfl

/-- Witness for C1 at concrete traces: the first call for `"p"` starts an
invocation; two further calls while it is in flight add none; and a
delivered outcome is equal to itself as an instance of the broadcast
property. -/
theorem getFlowResult_single_flight_witness :
    ((step parseNone (run parseNone []) (Event.call "p")).invocations
        = ("p", (run parseNone []).nextGen) :: (run parseNone []).invocations) ∧
    ((run parseNone ([Event.call "p"] ++ List.replicate 2 (Event.call "p"))).invocations
        = (run parseNone [Event.call "p"]).invocations) ∧
    (Settlement.failure timeoutError = Settlement.failure timeoutError) :=
  ⟨(getFlowResult_single_flight parseNone [] "p").1 (by decide),
   ((getFlowResult_single_flight parseNone [Event.call "p"] "p").2.1 2 0 (by decide)).1,
   (getFlowResult_single_flight parseNone [Event.call "p", Event.timerFires 0] "p").2.2
     0 0 0 (Settlement.failure timeoutError) (Settlement.failure timeoutError)
     (by decide) (by decide)⟩

/-- C2: the race between the timeout timer and the invocation delivers at
most one outcome to each waiter. (a) On any trace, no caller ever receives
two deliveries. (b) If the timer fired first (`timedOut` set), a later
`spawnWrapper` completion is silently discarded — the state is unchanged.
(c) If the invocation settles first, `clearTimeout` leaves the slot with an
inactive timer and a recorded settlement. (d) An inactive (cleared or
consumed) timer never fires: its event is a no-op. -/
theorem getFlowResult_race_once (parse : String → Option FlowResult)
    (es : List Event) (s : EngineState) (g : Nat) (cl : Closure)
    (out : SpawnOutcome) :
    (((run parse es).delivered.map (fun t => t.1)).Nodup) ∧
    (alookup g s.closures = some cl → cl.timedOut = true →
      step parse s (Event.spawnDone g out) = s) ∧
    (alookup g s.closures = some cl → cl.resolved = false → cl.timedOut = false →
      ∃ cl', alookup g (step parse s (Event.spawnDone g out)).closures = some cl' ∧
        cl'.timerActive = false ∧ cl'.settledWith.isSome = true) ∧
    (alookup g s.closures = some cl → cl.timerActive = false →
      step parse s (Event.timerFires g) = s) := by
  refine ⟨(inv_run parse es).delivNodup, ?_, ?_, ?_⟩
  · intro hcl htod
    simp only [step, hcl, htod, Bool.or_true, if_true]
  · intro hcl hres htod
    simp only [step, hcl, hres, htod, Bool.or_false, Bool.false_eq_true,
      if_false]
    rw [settle_unfold hcl]
    refine ⟨{ key := cl.key, resolved := true, timedOut := cl.timedOut,
              timerActive := false, timerDuration := cl.timerDuration,
              settledWith := some (match out with
                | SpawnOutcome.error e => Settlement.failure e
                | SpawnOutcome.close txt =>
                  match parse txt with
                  | some r => Settlement.success r
                  | none => Settlement.failure jsonSyntaxError) }, ?_, rfl, rfl⟩
    simp only [alookup_updateAt]
    rw [if_pos trivial, hcl]
    rfl
  · intro hcl hta
    simp only [step, hcl, hta, if_true]

/-- Witness for C2 at concrete states: after `call "p"` and its timeout, the
delivery log has no duplicate callers; a late spawn completion leaves the
settled state untouched; completing an in-flight slot clears its timer and
records a settlement; and firing the already-consumed timer again is a
no-op. -/
theorem getFlowResult_race_once_witness :
    (((run parseNone [Event.call "p", Event.timerFires 0]).delivered.map
        (fun t => t.1)).Nodup) ∧
    (step parseNone (run parseNone [Event.call "p", Event.timerFires 0])
        (Event.spawnDone 0 (SpawnOutcome.close "x"))
      = run parseNone [Event.call "p", Event.timerFires 0]) ∧
    (∃ cl', alookup 0 (step parseNone (run parseNone [Event.call "p"])
        (Event.spawnDone 0 (SpawnOutcome.close "x"))).closures = some cl' ∧
      cl'.timerActive = false ∧ cl'.settledWith.isSome = true) ∧
    (step parseNone (run parseNone [Event.call "p", Event.timerFires 0])
        (Event.timerFires 0)
      = run parseNone [Event.call "p", Event.timerFires 0]) :=
  ⟨(getFlowResult_race_once parseNone [Event.call "p", Event.timerFires 0]
      engineInit 0
      ⟨"p", false, true, false, 3000, some (Settlement.failure timeoutError)⟩
      (SpawnOutcome.close "x")).1,
   (getFlowResult_race_once parseNone []
      (run parseNone [Event.call "p", Event.timerFires 0]) 0
      ⟨"p", false, true, false, 3000, some (Settlement.failure timeoutError)⟩
      (SpawnOutcome.close "x")).2.1 (by decide) rfl,
   (getFlowResult_race_once parseNone [] (run parseNone [Event.call "p"]) 0
      ⟨"p", false, false, true, 3000, none⟩
      (SpawnOutcome.close "x")).2.2.1 (by decide) rfl rfl,
   (getFlowResult_race_once parseNone []
      (run parseNone [Event.call "p", Event.timerFires 0]) 0
      ⟨"p", false, true, false, 3000, some (Settlement.failure timeoutError)⟩
      (SpawnOutcome.close "x")).2.2.2 (by decide) rfl⟩

/-- C3: settlement clears the slot. If key `k` is cached with slot `g`, then
after the slot settles — by the timeout firing, or by the spawn completing
with success, spawn error, or parse failure (any `out`) — the cache entry
for `k` is gone, and a subsequent call for `k` starts a brand-new invocation
under a fresh generation (every existing generation, `g` included, is below
`nextGen`). -/
theorem getFlowResult_clears_slot (parse : String → Option FlowResult)
    (es : List Event) (k : String) (g : Nat)
    (h : alookup k (run parse es).cache = some g) :
    (alookup k (step parse (run parse es) (Event.timerFires g)).cache = none ∧
     (step parse (step parse (run parse es) (Event.timerFires g))
         (Event.call k)).invocations
       = (k, (run parse es).nextGen)
           :: (step parse (run parse es) (Event.timerFires g)).invocations ∧
     g < (run parse es).nextGen) ∧
    (∀ out,
     alookup k (step parse (run parse es) (Event.spawnDone g out)).cache = none ∧
     (step parse (step parse (run parse es) (Event.spawnDone g out))
         (Event.call k)).invocations
       = (k, (run parse es).nextGen)
           :: (step parse (run parse es) (Event.spawnDone g out)).invocations ∧
     g < (run parse es).nextGen) := by
  obtain ⟨cl, hcl, hkey, hres, htod, hact⟩ :=
    (inv_run parse es).cacheClosure k g h
  have hgen := (inv_run parse es).gensLt g cl hcl
  constructor
  · have hstep : step parse (run parse es) (Event.timerFires g)
        = settle g (.failure timeoutError)
            (fun c => { c with timedOut := true, timerActive := false })
            (run parse es) := by
      simp only [step, hcl, hact, hres, htod, Bool.or_false, Bool.false_eq_true,
        Bool.true_eq_false, if_false]
    rw [hstep]
    obtain ⟨h1, h2⟩ := settle_clears_key parse hcl hkey
      (.failure timeoutError)
      (fun c => { c with timedOut := true, timerActive := false })
    exact ⟨h1, h2, hgen⟩
  · intro out
    have hstep : step parse (run parse es) (Event.spawnDone g out)
        = settle g
            (match out with
             | .error e => .failure e
             | .close txt =>
               match parse txt with
               | some r => .success r
               | none => .failure jsonSyntaxError)
            (fun c => { c with resolved := true, timerActive := false })
            (run parse es) := by
      simp only [step, hcl, hres, htod, Bool.or_false, Bool.false_eq_true,
        if_false]
    rw [hstep]
    obtain ⟨h1, h2⟩ := settle_clears_key parse hcl hkey _
      (fun c => { c with resolved := true, timerActive := false })
    exact ⟨h1, h2, hgen⟩

/-- Witness for C3 at the concrete trace `[call "p"]`: both a timeout
settlement and a spawn-error settlement of slot 0 clear the cache entry for
`"p"` and make the next call start a new invocation. -/
theorem getFlowResult_clears_slot_witness :
    (alookup "p" (step parseNone (run parseNone [Event.call "p"])
        (Event.timerFires 0)).cache = none ∧
     (step parseNone (step parseNone (run parseNone [Event.call "p"])
         (Event.timerFires 0)) (Event.call "p")).invocations
       = ("p", (run parseNone [Event.call "p"]).nextGen)
           :: (step parseNone (run parseNone [Event.call "p"])
                (Event.timerFires 0)).invocations ∧
     0 < (run parseNone [Event.call "p"]).nextGen) ∧
    (alookup "p" (step parseNone (run parseNone [Event.call "p"])
        (Event.spawnDone 0 (SpawnOutcome.error ⟨"Error", "spawn ENOENT"⟩))).cache
        = none ∧
     (step parseNone (step parseNone (run parseNone [Event.call "p"])
         (Event.spawnDone 0 (SpawnOutcome.error ⟨"Error", "spawn ENOENT"⟩)))
         (Event.call "p")).invocations
       = ("p", (run parseNone [Event.call "p"]).nextGen)
           :: (step parseNone (run parseNone [Event.call "p"])
                (Event.spawnDone 0
                  (SpawnOutcome.error ⟨"Error", "spawn ENOENT"⟩))).invocations ∧
     0 < (run parseNone [Event.call "p"]).nextGen) :=
  ⟨(getFlowResult_clears_slot parseNone [Event.call "p"] "p" 0 (by decide)).1,
   (getFlowResult_clears_slot parseNone [Event.call "p"] "p" 0 (by decide)).2
     (SpawnOutcome.error ⟨"Error", "spawn ENOENT"⟩)⟩

/-- C9 (counterexample): a call into the coalescer carries only the project
key — `Event.call`, the model of `getFlowResult(projectRoot)`, has no
timeout argument to pass, the source signature being
`getFlowResult(projectRoot: string)` — and the slot created by any such call
has its timer started with the module constant 3000, refuting the claim
that the timeout is configurable as a per-invocation parameter
`invoke(key, timeoutMs)`. -/
theorem flow_timeout_not_configurable :
    alookup 0 (run parseNone [Event.call "p"]).closures
      = some ⟨"p", false, false, true, 3000, none⟩ ∧
    alookup 0 (run parseNone [Event.call "q"]).closures
      = some ⟨"q", false, false, true, 3000, none⟩ :=
  ⟨by decide, by decide⟩

/-- C9 (amended): the invocation timeout is the module-level constant
`FLOW_TIMEOUT = 3000` ms, hard-coded into `getFlowResult`'s `setTimeout`
call: every slot ever created on any trace has its timer started with
exactly that duration. -/
theorem flow_timeout_constant (parse : String → Option FlowResult)
    (es : List Event) (g : Nat) (cl : Closure)
    (h : alookup g (run parse es).closures = some cl) :
    cl.timerDuration = FLOW_TIMEOUT ∧ FLOW_TIMEOUT = 3000 :=
  ⟨(inv_run parse es).durationsEq g cl h, rfl⟩

/-- Witness for C9's amended claim at the slot created by `call "p"`. -/
theorem flow_timeout_constant_witness :
    (⟨"p", false, false, true, 3000, none⟩ : Closure).timerDuration
        = FLOW_TIMEOUT ∧
    FLOW_TIMEOUT = 3000 :=
  flow_timeout_constant parseNone [Event.call "p"] 0
    ⟨"p", false, false, true, 3000, none⟩ (by decide)

end Flow
